import Mathlib

/-!
# gosfml: vertex arrays and fonts

A shallow embedding of `vertexArray.go` and `font.go`.

* Coordinates are taken in an arbitrary linearly ordered additive group `α`
  (the integers and the rationals are instances), standing for `float32`
  without rounding and without NaN.
* A Go slice is a window on a backing array: `Slice.elems` are the cells the
  slice shows (its `len`), `Slice.spare` the cells of the backing array between
  `len` and `cap`.  The builtin `make` panics beyond the allocation limit of
  the Go runtime, which is a parameter (`limit`, in elements); `append`, which
  asks for one more cell, is taken to find it.
* A runtime panic is the result `none`.
* Calls into the native engine are recorded, in order, in a list (of
  `DrawCall`s for the vertex array, of `FontEffect`s for the font) that every
  operation with a native call takes and returns.
-/

namespace Gosfml

/-! ## Data model -/

/-- Modelled from the spec: the two-dimensional vector type (fields `X`, `Y`),
declared outside the two source files. -/
structure Vector2f (α : Type) where
  X : α
  Y : α
deriving DecidableEq

/-- Modelled from the spec: the four-channel colour type, declared outside the
two source files; each channel is a byte. -/
structure Color where
  R : Nat
  G : Nat
  B : Nat
  A : Nat
deriving DecidableEq

/-- Modelled from the spec: the rectangle type returned by `GetBounds`
(left, top, width, height), declared outside the two source files. -/
structure FloatRect (α : Type) where
  Left : α
  Top : α
  Width : α
  Height : α
deriving DecidableEq

/-- The Go type `Vertex`. -/
structure Vertex (α : Type) where
  Position : Vector2f α
  Color : Color
  TexCoords : Vector2f α
deriving DecidableEq

/-- The zero value of `Vertex`: what `make` fills a fresh backing array with. -/
def Vertex.zero {α : Type} [Zero α] : Vertex α :=
  ⟨⟨0, 0⟩, ⟨0, 0, 0, 0⟩, ⟨0, 0⟩⟩

/-- The zero value `FloatRect{}`. -/
def FloatRect.zero {α : Type} [Zero α] : FloatRect α :=
  ⟨0, 0, 0, 0⟩

/-- The Go type `PrimitiveType` (`type PrimitiveType int`). -/
abbrev PrimitiveType := Int

/-! ## Go slices -/

/-- A Go slice: `elems` are the cells the slice shows, `spare` the cells of its
backing array beyond `len`, up to `cap`. -/
structure Slice (β : Type) where
  elems : List β
  spare : List β
deriving DecidableEq

/-- The nil slice: the zero value of a slice-typed field. -/
def Slice.nil {β : Type} : Slice β :=
  ⟨[], []⟩

/-- The builtin `len(s)`. -/
def Slice.len {β : Type} (s : Slice β) : Nat :=
  s.elems.length

/-- The builtin `cap(s)`. -/
def Slice.cap {β : Type} (s : Slice β) : Nat :=
  s.elems.length + s.spare.length

/-- The slice expression `s[:n]` for a bound already known to lie in
`[0, cap(s)]`: the window is moved, the backing array is kept. -/
def Slice.reslice {β : Type} (s : Slice β) (n : Nat) : Slice β :=
  ⟨(s.elems ++ s.spare).take n, (s.elems ++ s.spare).drop n⟩

/-- The slice expression `s[:n]` for a run-time bound: it panics unless
`0 ≤ n ≤ cap(s)`. -/
def Slice.upTo {β : Type} (s : Slice β) (n : Int) : Option (Slice β) :=
  if 0 ≤ n ∧ n ≤ (s.cap : Int) then some (s.reslice n.toNat) else none

/-- The builtin `make([]T, n)`: a fresh backing array of `n` zero values, with
`len = cap = n`.  It panics (`makeslice: len out of range`) on a negative
length and on a length beyond `limit`, the greatest number of elements of the
type that the Go runtime allocates (its `maxAlloc` over the size of an element:
the value depends on the platform, hence the parameter). -/
def Slice.make {β : Type} (limit : Nat) (zero : β) (n : Int) : Option (Slice β) :=
  if 0 ≤ n ∧ n ≤ (limit : Int) then some ⟨List.replicate n.toNat zero, []⟩ else none

/-- The builtin `copy(dst, src)`: the first `min(len(dst), len(src))` cells of
`dst` are overwritten with those of `src`; the result is `dst` afterwards. -/
def Slice.copy {β : Type} (dst src : Slice β) : Slice β :=
  ⟨src.elems.take (min dst.len src.len) ++ dst.elems.drop (min dst.len src.len), dst.spare⟩

/-- The builtin `append(s, v)`.  With room left (`len < cap`) the next cell of
the backing array is overwritten; otherwise the cells move to a fresh backing
array, which has `grow (cap s)` zeroed cells beyond the new element (how many
is the Go runtime's choice, hence the parameter). -/
def Slice.append {β : Type} (grow : Nat → Nat) (zero : β) (s : Slice β) (v : β) : Slice β :=
  match s.spare with
  | [] => ⟨s.elems ++ [v], List.replicate (grow s.cap) zero⟩
  | _ :: rest => ⟨s.elems ++ [v], rest⟩

/-! ## vertexArray.go -/

/-- The Go type `VertexArray`. -/
structure VertexArray (α : Type) where
  Vertices : Slice (Vertex α)
  PrimitiveType : PrimitiveType
deriving DecidableEq

section VertexArrayOps

variable {α : Type}

/-- The Go function `NewVertexArray`: the zero-valued array and a nil error. -/
def NewVertexArray : VertexArray α × Option String :=
  (⟨Slice.nil, 0⟩, none)

/-- The Go method `VertexArray.Copy`: the new array is built with the
primitive type only (its `Vertices` is the nil slice), then `copy` is called
with that slice as destination. -/
def VertexArray.Copy (this : VertexArray α) : VertexArray α :=
  let vertexArray : VertexArray α := ⟨Slice.nil, this.PrimitiveType⟩
  { vertexArray with Vertices := Slice.copy vertexArray.Vertices this.Vertices }

/-- The Go method `VertexArray.GetVertexCount`. -/
def VertexArray.GetVertexCount (this : VertexArray α) : Nat :=
  this.Vertices.len

/-- The Go method `VertexArray.GetVertex`: an index out of range panics. -/
def VertexArray.GetVertex (this : VertexArray α) (index : Nat) : Option (Vertex α) :=
  this.Vertices.elems[index]?

/-- The Go method `VertexArray.SetVertex`: an index out of range panics. -/
def VertexArray.SetVertex (this : VertexArray α) (vertex : Vertex α) (index : Nat) :
    Option (VertexArray α) :=
  if index < this.Vertices.len then
    some { this with Vertices := ⟨this.Vertices.elems.set index vertex, this.Vertices.spare⟩ }
  else none

/-- The Go method `VertexArray.Clear`: `this.Vertices[:0]`, the constant bound
being always in range. -/
def VertexArray.Clear (this : VertexArray α) : VertexArray α :=
  { this with Vertices := this.Vertices.reslice 0 }

/-- The Go method `VertexArray.Resize`; `limit` is the allocation limit of
`make([]Vertex, n)`. -/
def VertexArray.Resize [Zero α] (limit : Nat) (this : VertexArray α) (vertexCount : Int) :
    Option (VertexArray α) :=
  if vertexCount > (this.Vertices.len : Int) then
    (Slice.make limit Vertex.zero vertexCount).map fun vertices =>
      { this with Vertices := Slice.copy vertices this.Vertices }
  else
    (this.Vertices.upTo vertexCount).map fun s => { this with Vertices := s }

/-- The Go method `VertexArray.Append`. -/
def VertexArray.Append [Zero α] (grow : Nat → Nat) (this : VertexArray α)
    (vertex : Vertex α) : VertexArray α :=
  { this with Vertices := Slice.append grow Vertex.zero this.Vertices vertex }

/-- The Go method `VertexArray.SetPrimitiveType`. -/
def VertexArray.SetPrimitiveType (this : VertexArray α) (ptype : Gosfml.PrimitiveType) :
    VertexArray α :=
  { this with PrimitiveType := ptype }

/-- The Go method `VertexArray.GetPrimitiveType`. -/
def VertexArray.GetPrimitiveType (this : VertexArray α) : Gosfml.PrimitiveType :=
  this.PrimitiveType

/-- The four running variables of the loop of `GetBounds`. -/
structure Extent (α : Type) where
  left : α
  top : α
  right : α
  bottom : α
deriving DecidableEq

/-- One iteration of the loop of `GetBounds` on the position `pos`. -/
def boundsStep [LinearOrderedAddCommGroup α] (e : Extent α) (pos : Vector2f α) : Extent α :=
  let e1 : Extent α :=
    if pos.X < e.left then { e with left := pos.X }
    else if pos.X > e.right then { e with right := pos.X }
    else e
  if pos.Y < e1.top then { e1 with top := pos.Y }
  else if pos.Y > e1.bottom then { e1 with bottom := pos.Y }
  else e1

/-- The loop of `GetBounds` over the vertices of index 1 and up. -/
def boundsLoop [LinearOrderedAddCommGroup α] (e : Extent α) (vs : List (Vertex α)) : Extent α :=
  vs.foldl (fun acc v => boundsStep acc v.Position) e

/-- The Go method `VertexArray.GetBounds`. -/
def VertexArray.GetBounds [LinearOrderedAddCommGroup α] (this : VertexArray α) : FloatRect α :=
  match this.Vertices.elems with
  | v0 :: rest =>
    let e := boundsLoop ⟨v0.Position.X, v0.Position.Y, v0.Position.X, v0.Position.Y⟩ rest
    ⟨e.left, e.top, e.right - e.left, e.bottom - e.top⟩
  | [] => FloatRect.zero

/-- A pointer into the native engine: `none` is the null pointer. -/
abbrev CPtr := Option Nat

/-- Modelled from the spec: the window render target, declared outside the
two source files; the only field the code reads is its native handle. -/
structure RenderWindow where
  cptr : CPtr
deriving DecidableEq

/-- Modelled from the spec: the off-screen texture render target, declared
outside the two source files; it owns a native handle of its own. -/
structure RenderTexture where
  cptr : CPtr
deriving DecidableEq

/-- Modelled from the spec: the interface `RenderTarget`, declared outside the
two source files, by the dynamic type of its value: a `*RenderWindow`, a
`*RenderTexture` (either pointer may be nil), or anything else, the nil
interface included. -/
inductive RenderTarget where
  | window (p : Option RenderWindow)
  | texture (p : Option RenderTexture)
  | other
deriving DecidableEq

/-- The type assertion `target.(*RenderWindow)`: it panics unless the dynamic
type of `target` is `*RenderWindow`. -/
def RenderTarget.assertRenderWindow : RenderTarget → Option (Option RenderWindow)
  | .window p => some p
  | .texture _ => none
  | .other => none

/-- The field access `p.cptr` through a pointer: a nil pointer panics. -/
def RenderWindow.deref (p : Option RenderWindow) : Option CPtr :=
  p.map fun w => w.cptr

/-- The conversion `C.uint(n)` of a Go `int` holding a length. -/
def toCUint (n : Nat) : Nat :=
  n % 2 ^ 32

/-- The conversion `C.sfPrimitiveType(t)` of a Go `int` to the C enumeration,
an unsigned 32-bit integer. -/
def toCPrimitiveType (t : Gosfml.PrimitiveType) : Nat :=
  (t % 2 ^ 32).toNat

/-- A call into the native engine made by `Draw`, with its arguments: the
target handle, the vertices the pointer `&this.Vertices[0]` shows, the count,
the primitive type and the converted render states. -/
inductive DrawCall (α : Type) (S : Type) where
  | sfRenderWindow_drawPrimitives (renderWindow : CPtr) (vertices : List (Vertex α))
      (vertexCount : Nat) (type : Nat) (states : S)
  | sfRenderTexture_drawPrimitives (renderTexture : CPtr) (vertices : List (Vertex α))
      (vertexCount : Nat) (type : Nat) (states : S)
deriving DecidableEq

/-- The Go method `VertexArray.Draw`.  The conversion `renderStates.toC()` is
declared outside the two source files and is the parameter `toC`.  The array is
returned as it is left, next to the recorded native calls. -/
def VertexArray.Draw {R S : Type} (toC : R → S) (this : VertexArray α) (target : RenderTarget)
    (renderStates : R) (log : List (DrawCall α S)) :
    Option (VertexArray α × List (DrawCall α S)) :=
  if this.Vertices.len > 0 then
    let rs := toC renderStates
    match target with
    | .window _ =>
      (target.assertRenderWindow.bind RenderWindow.deref).map fun cptr =>
        (this, log ++ [DrawCall.sfRenderWindow_drawPrimitives cptr this.Vertices.elems
          (toCUint this.Vertices.len) (toCPrimitiveType this.PrimitiveType) rs])
    | .texture _ =>
      (target.assertRenderWindow.bind RenderWindow.deref).map fun cptr =>
        (this, log ++ [DrawCall.sfRenderTexture_drawPrimitives cptr this.Vertices.elems
          (toCUint this.Vertices.len) (toCPrimitiveType this.PrimitiveType) rs])
    | .other => some (this, log)
  else some (this, log)

end VertexArrayOps

/-! ## font.go -/

/-- The Go type `Font`: the handle of the native font. -/
structure Font where
  cptr : CPtr
deriving DecidableEq

/-- What the font functions do outside the Go heap, in order: calls into the
native engine with their arguments, and the registration of a finalizer with
the Go runtime (on the font holding the given handle). -/
inductive FontEffect where
  | sfFont_createFromMemory (data : List Nat) (sizeInBytes : Nat)
  | sfFont_destroy (font : CPtr)
  | runtime_SetFinalizer (font : Font)
deriving DecidableEq

/-- Whether an effect is a call into the native engine. -/
def FontEffect.isNative : FontEffect → Bool
  | .sfFont_createFromMemory _ _ => true
  | .sfFont_destroy _ => true
  | .runtime_SetFinalizer _ => false

/-- The Go function `NewFontFromMemory`.  The handle the native engine returns
for a buffer and a size is the parameter `createFromMemory`.  The result is the
font pointer (`none` is nil), the error (`none` is nil) and the effects. -/
def NewFontFromMemory (createFromMemory : List Nat → Nat → CPtr) (data : List Nat)
    (log : List FontEffect) : Option Font × Option String × List FontEffect :=
  if data.length > 0 then
    let font : Font := ⟨createFromMemory data data.length⟩
    (some font, none,
      log ++ [FontEffect.sfFont_createFromMemory data data.length,
              FontEffect.runtime_SetFinalizer font])
  else (none, some "NewFontFromMemory: no data", log)

/-- The Go method `Font.Destroy`. -/
def Font.Destroy (this : Font) (log : List FontEffect) : Font × List FontEffect :=
  ({ this with cptr := none }, log ++ [FontEffect.sfFont_destroy this.cptr])

/-- The calls `Append(w)` for each `w` of `ws`, in order. -/
def appendAll {α : Type} [Zero α] (grow : Nat → Nat) (a : VertexArray α)
    (ws : List (Vertex α)) : VertexArray α :=
  ws.foldl (VertexArray.Append grow) a

/-! ## Sample values -/

/-- A vertex at the integer position `(x, y)`, all other fields zero. -/
def vertexAt (x y : Int) : Vertex Int :=
  ⟨⟨x, y⟩, ⟨0, 0, 0, 0⟩, ⟨0, 0⟩⟩

/-- The array holding the single vertex at `(3, 4)`. -/
def onePoint : VertexArray Int :=
  ⟨⟨[vertexAt 3 4], []⟩, 0⟩

/-- The allocation limit of `make([]Vertex, n)` on linux/amd64: the `maxAlloc`
of the Go runtime, `2 ^ 48` bytes, over the 20 bytes of a `Vertex` (two
`float32` pairs and four colour bytes). -/
def vertexLimit64 : Nat :=
  2 ^ 48 / 20

/-- The array holding the vertices at `(0, 0)` and `(10, 5)`. -/
def twoPoints : VertexArray Int :=
  ⟨⟨[vertexAt 0 0, vertexAt 10 5], []⟩, 0⟩

/-! ## Slice lemmas -/

section Lemmas

variable {α : Type}

theorem Slice.make_natCast {β : Type} (limit : Nat) (zero : β) (n : Nat) (h : n ≤ limit) :
    Slice.make limit zero (n : Int) = some ⟨List.replicate n zero, []⟩ := by
  have hi : (n : Int) ≤ (limit : Int) := by exact_mod_cast h
  simp [Slice.make, hi]

theorem Slice.make_beyond_limit {β : Type} (limit : Nat) (zero : β) (n : Int)
    (h : (limit : Int) < n) : Slice.make limit zero n = none := by
  have hi : ¬ (0 ≤ n ∧ n ≤ (limit : Int)) := fun hc => absurd hc.2 (not_le.mpr h)
  simp only [Slice.make, if_neg hi]

/-- Beyond the current length and beyond the allocation limit, `Resize` panics. -/
theorem VertexArray.Resize_beyond_limit [Zero α] (limit : Nat) (a : VertexArray α) (n : Int)
    (h1 : (a.Vertices.len : Int) < n) (h2 : (limit : Int) < n) :
    a.Resize limit n = none := by
  have hi : n > (a.Vertices.len : Int) := h1
  simp only [VertexArray.Resize, if_pos hi, Slice.make_beyond_limit limit _ n h2,
    Option.map_none']

theorem Slice.upTo_natCast_of_le {β : Type} (s : Slice β) (n : Nat) (h : n ≤ s.len) :
    s.upTo (n : Int) = some ⟨s.elems.take n, s.elems.drop n ++ s.spare⟩ := by
  have hc : (n : Int) ≤ (s.cap : Int) := by
    have : n ≤ s.cap := by unfold Slice.cap; unfold Slice.len at h; omega
    exact_mod_cast this
  unfold Slice.len at h
  simp [Slice.upTo, hc, Slice.reslice, List.take_append_of_le_length h,
    List.drop_append_of_le_length h]

/-- The vertex sequence after `Resize n`, for every `n ≥ 0` that is at most the
current length or at most the allocation limit. -/
theorem VertexArray.Resize_natCast [Zero α] (limit : Nat) (a : VertexArray α) (n : Nat)
    (hn : n ≤ a.Vertices.len ∨ n ≤ limit) :
    ∃ b, a.Resize limit (n : Int) = some b ∧ b.PrimitiveType = a.PrimitiveType ∧
      b.Vertices.elems = a.Vertices.elems.take n ++
        List.replicate (n - a.Vertices.len) Vertex.zero := by
  by_cases h : a.Vertices.len < n
  · have hi : (n : Int) > (a.Vertices.len : Int) := by exact_mod_cast h
    have hl : a.Vertices.elems.length ≤ n := by unfold Slice.len at h; omega
    refine ⟨{ a with Vertices := Slice.copy ⟨List.replicate n Vertex.zero, []⟩ a.Vertices },
      ?_, rfl, ?_⟩
    · have hlim : n ≤ limit := by
        rcases hn with hn | hn
        · omega
        · exact hn
      simp only [VertexArray.Resize, if_pos hi, Slice.make_natCast limit _ n hlim,
        Option.map_some']
    · simp [Slice.copy, Slice.len, Nat.min_eq_right hl, List.take_of_length_le hl]
  · have hle : n ≤ a.Vertices.len := by omega
    have hi : ¬ ((n : Int) > (a.Vertices.len : Int)) := by
      intro hc
      exact h (by exact_mod_cast hc)
    refine ⟨{ a with Vertices := ⟨a.Vertices.elems.take n,
      a.Vertices.elems.drop n ++ a.Vertices.spare⟩ }, ?_, rfl, ?_⟩
    · simp only [VertexArray.Resize, if_neg hi, Slice.upTo_natCast_of_le _ _ hle,
        Option.map_some']
    · simp [Nat.sub_eq_zero_of_le hle]

theorem getElem?_take_append_replicate {β : Type} (vs : List β) (z : β) (n i : Nat) :
    (vs.take n ++ List.replicate (n - vs.length) z)[i]? =
      if i < n then some (if h : i < vs.length then vs[i] else z) else none := by
  by_cases hn : i < n
  · by_cases hl : i < vs.length
    · have h1 : i < (vs.take n).length := by simp [List.length_take]; omega
      rw [List.getElem?_append_left h1]
      simp [hn, hl, List.getElem?_take, List.getElem?_eq_getElem hl]
    · have h1 : (vs.take n).length ≤ i := by simp [List.length_take]; omega
      have h2 : (vs.take n).length = vs.length := by simp [List.length_take]; omega
      rw [List.getElem?_append_right h1]
      have h3 : i - (vs.take n).length < n - vs.length := by omega
      rw [List.getElem?_replicate, if_pos h3]
      simp [hn, hl]
  · have h1 : (vs.take n ++ List.replicate (n - vs.length) z).length ≤ i := by
      simp [List.length_take]; omega
    simp [hn, List.getElem?_eq_none h1]

theorem Slice.append_elems {β : Type} (grow : Nat → Nat) (zero : β) (s : Slice β) (v : β) :
    (Slice.append grow zero s v).elems = s.elems ++ [v] := by
  unfold Slice.append
  split <;> rfl

theorem appendAll_spec [Zero α] (grow : Nat → Nat) (ws : List (Vertex α)) :
    ∀ a : VertexArray α, (appendAll grow a ws).Vertices.elems = a.Vertices.elems ++ ws ∧
      (appendAll grow a ws).PrimitiveType = a.PrimitiveType := by
  induction ws with
  | nil => intro a; simp [appendAll]
  | cons w ws ih =>
    intro a
    have h := ih (a.Append grow w)
    simp only [appendAll, List.foldl_cons] at h ⊢
    refine ⟨?_, h.2⟩
    rw [h.1]
    simp [VertexArray.Append, Slice.append_elems]

theorem VertexArray.GetBounds_congr [LinearOrderedAddCommGroup α] (a b : VertexArray α)
    (h : a.Vertices.elems = b.Vertices.elems) : a.GetBounds = b.GetBounds := by
  simp only [VertexArray.GetBounds, h]

theorem boundsStep_eq [LinearOrderedAddCommGroup α] (e : Extent α) (pos : Vector2f α)
    (hx : e.left ≤ e.right) (hy : e.top ≤ e.bottom) :
    boundsStep e pos =
      ⟨min e.left pos.X, min e.top pos.Y, max e.right pos.X, max e.bottom pos.Y⟩ := by
  unfold boundsStep
  by_cases h1 : pos.X < e.left
  · have h2 : pos.X ≤ e.right := le_trans h1.le hx
    by_cases h3 : pos.Y < e.top
    · have h4 : pos.Y ≤ e.bottom := le_trans h3.le hy
      simp [h1, h3, min_eq_right h1.le, min_eq_right h3.le, max_eq_left h2, max_eq_left h4]
    · have h3l : e.top ≤ pos.Y := not_lt.mp h3
      by_cases h5 : pos.Y > e.bottom
      · simp [h1, h3, h5, min_eq_right h1.le, min_eq_left h3l, max_eq_left h2,
          max_eq_right (le_of_lt h5)]
      · simp [h1, h3, h5, min_eq_right h1.le, min_eq_left h3l, max_eq_left h2,
          max_eq_left (not_lt.mp h5)]
  · have h1l : e.left ≤ pos.X := not_lt.mp h1
    by_cases h2 : pos.X > e.right
    · by_cases h3 : pos.Y < e.top
      · have h4 : pos.Y ≤ e.bottom := le_trans h3.le hy
        simp [h1, h2, h3, min_eq_left h1l, min_eq_right h3.le, max_eq_right (le_of_lt h2),
          max_eq_left h4]
      · have h3l : e.top ≤ pos.Y := not_lt.mp h3
        by_cases h5 : pos.Y > e.bottom
        · simp [h1, h2, h3, h5, min_eq_left h1l, min_eq_left h3l, max_eq_right (le_of_lt h2),
            max_eq_right (le_of_lt h5)]
        · simp [h1, h2, h3, h5, min_eq_left h1l, min_eq_left h3l, max_eq_right (le_of_lt h2),
            max_eq_left (not_lt.mp h5)]
    · by_cases h3 : pos.Y < e.top
      · have h4 : pos.Y ≤ e.bottom := le_trans h3.le hy
        simp [h1, h2, h3, min_eq_left h1l, min_eq_right h3.le, max_eq_left (not_lt.mp h2),
          max_eq_left h4]
      · have h3l : e.top ≤ pos.Y := not_lt.mp h3
        by_cases h5 : pos.Y > e.bottom
        · simp [h1, h2, h3, h5, min_eq_left h1l, min_eq_left h3l, max_eq_left (not_lt.mp h2),
            max_eq_right (le_of_lt h5)]
        · simp [h1, h2, h3, h5, min_eq_left h1l, min_eq_left h3l, max_eq_left (not_lt.mp h2),
            max_eq_left (not_lt.mp h5)]

theorem boundsLoop_eq [LinearOrderedAddCommGroup α] (vs : List (Vertex α)) :
    ∀ e : Extent α, e.left ≤ e.right → e.top ≤ e.bottom →
      boundsLoop e vs =
        ⟨vs.foldl (fun m v => min m v.Position.X) e.left,
         vs.foldl (fun m v => min m v.Position.Y) e.top,
         vs.foldl (fun m v => max m v.Position.X) e.right,
         vs.foldl (fun m v => max m v.Position.Y) e.bottom⟩ := by
  induction vs with
  | nil => intro e _ _; rfl
  | cons v vs ih =>
    intro e hx hy
    have hs := boundsStep_eq e v.Position hx hy
    have h := ih (boundsStep e v.Position)
      (by rw [hs]; exact le_trans (min_le_left _ _) (le_trans hx (le_max_left _ _)))
      (by rw [hs]; exact le_trans (min_le_left _ _) (le_trans hy (le_max_left _ _)))
    simp only [boundsLoop, List.foldl_cons] at h ⊢
    rw [h, hs]

theorem foldl_min_isLeast {β γ : Type} [LinearOrder γ] (f : β → γ) (vs : List β) :
    ∀ m0 : γ, IsLeast {x | x = m0 ∨ ∃ v ∈ vs, f v = x} (vs.foldl (fun m v => min m (f v)) m0) := by
  induction vs with
  | nil =>
    intro m0
    exact ⟨Or.inl rfl, fun x hx => by rcases hx with rfl | ⟨v, hv, -⟩; exact le_rfl; cases hv⟩
  | cons w ws ih =>
    intro m0
    obtain ⟨hmem, hlb⟩ := ih (min m0 (f w))
    simp only [List.foldl_cons]
    constructor
    · rcases hmem with h | ⟨v, hv, hfv⟩
      · rcases min_choice m0 (f w) with hm | hm
        · exact Or.inl (h.trans hm)
        · exact Or.inr ⟨w, List.mem_cons_self _ _, (h.trans hm).symm⟩
      · exact Or.inr ⟨v, List.mem_cons_of_mem _ hv, hfv⟩
    · intro x hx
      have hle : List.foldl (fun m v => min m (f v)) (min m0 (f w)) ws ≤ min m0 (f w) :=
        hlb (Or.inl rfl)
      rcases hx with rfl | ⟨v, hv, rfl⟩
      · exact le_trans hle (min_le_left _ _)
      · rcases List.mem_cons.mp hv with rfl | hv
        · exact le_trans hle (min_le_right _ _)
        · exact hlb (Or.inr ⟨v, hv, rfl⟩)

theorem foldl_max_isGreatest {β γ : Type} [LinearOrder γ] (f : β → γ) (vs : List β) :
    ∀ m0 : γ,
      IsGreatest {x | x = m0 ∨ ∃ v ∈ vs, f v = x} (vs.foldl (fun m v => max m (f v)) m0) := by
  induction vs with
  | nil =>
    intro m0
    exact ⟨Or.inl rfl, fun x hx => by rcases hx with rfl | ⟨v, hv, -⟩; exact le_rfl; cases hv⟩
  | cons w ws ih =>
    intro m0
    obtain ⟨hmem, hub⟩ := ih (max m0 (f w))
    simp only [List.foldl_cons]
    constructor
    · rcases hmem with h | ⟨v, hv, hfv⟩
      · rcases max_choice m0 (f w) with hm | hm
        · exact Or.inl (h.trans hm)
        · exact Or.inr ⟨w, List.mem_cons_self _ _, (h.trans hm).symm⟩
      · exact Or.inr ⟨v, List.mem_cons_of_mem _ hv, hfv⟩
    · intro x hx
      have hle : max m0 (f w) ≤ List.foldl (fun m v => max m (f v)) (max m0 (f w)) ws :=
        hub (Or.inl rfl)
      rcases hx with rfl | ⟨v, hv, rfl⟩
      · exact le_trans (le_max_left _ _) hle
      · rcases List.mem_cons.mp hv with rfl | hv
        · exact le_trans (le_max_right _ _) hle
        · exact hub (Or.inr ⟨v, hv, rfl⟩)

theorem coordinates_cons {β γ : Type} (f : β → γ) (v0 : β) (rest : List β) :
    {x | ∃ v ∈ v0 :: rest, f v = x} = {x | x = f v0 ∨ ∃ v ∈ rest, f v = x} := by
  ext x
  simp only [Set.mem_setOf_eq, List.mem_cons]
  constructor
  · rintro ⟨v, rfl | hv, rfl⟩
    · exact Or.inl rfl
    · exact Or.inr ⟨v, hv, rfl⟩
  · rintro (rfl | ⟨v, hv, rfl⟩)
    · exact ⟨v0, Or.inl rfl, rfl⟩
    · exact ⟨v, Or.inr hv, rfl⟩

end Lemmas

/-! ## The claims -/

section Claims

variable {α : Type}

/-- C1, as the code behaves: `Copy` keeps the primitive type and returns an
array with no vertex at all, whatever the array copied; the copy of the array
holding the single vertex at `(3, 4)` has vertex count 0, not 1. -/
theorem Copy_loses_the_vertices :
    (∀ (β : Type) (a : VertexArray β), a.Copy.Vertices.elems = [] ∧
      a.Copy.PrimitiveType = a.PrimitiveType) ∧
    onePoint.GetVertexCount = 1 ∧ onePoint.Copy.GetVertexCount = 0 ∧
    onePoint.GetVertex 0 = some (vertexAt 3 4) ∧ onePoint.Copy.GetVertex 0 = none := by
  refine ⟨fun β a => ⟨?_, rfl⟩, by decide, by decide, by decide, by decide⟩
  simp [VertexArray.Copy, Slice.copy, Slice.nil, Slice.len]

/-- C3, as stated, fails: `Resize(1 << 62)` asks `make` for more vertices than
the runtime allocates, on linux/amd64 and under every limit below `2 ^ 62`, and
panics; no vertex count follows. -/
theorem Resize_beyond_the_limit_panics :
    onePoint.GetVertexCount = 1 ∧
    onePoint.Resize vertexLimit64 (2 ^ 62 : Int) = none ∧
    ∀ limit : Nat, limit < 2 ^ 62 → onePoint.Resize limit (2 ^ 62 : Int) = none := by
  refine ⟨by decide, ?_, ?_⟩
  · exact VertexArray.Resize_beyond_limit _ _ _ (by decide) (by decide)
  · intro limit h
    refine VertexArray.Resize_beyond_limit _ _ _ (by decide) ?_
    have : ((limit : Nat) : Int) < ((2 ^ 62 : Nat) : Int) := by exact_mod_cast h
    simpa using this

/-- C3, amended: for every `n ≥ 0` that is at most the current length or at most
the allocation limit of `make`, `Resize n` returns and the vertex count
afterwards is `n`; for an `n` above both, `Resize n` panics. -/
theorem Resize_then_GetVertexCount [Zero α] (limit : Nat) (a : VertexArray α) (n : Nat) :
    (n ≤ a.GetVertexCount ∨ n ≤ limit →
      ∃ b, a.Resize limit (n : Int) = some b ∧ b.GetVertexCount = n) ∧
    (a.GetVertexCount < n ∧ limit < n → a.Resize limit (n : Int) = none) := by
  constructor
  · intro hn
    obtain ⟨b, hb, -, he⟩ := VertexArray.Resize_natCast limit a n hn
    refine ⟨b, hb, ?_⟩
    simp only [VertexArray.GetVertexCount, Slice.len, he, List.length_append, List.length_take,
      List.length_replicate]
    omega
  · rintro ⟨h1, h2⟩
    exact VertexArray.Resize_beyond_limit limit a n (by exact_mod_cast h1) (by exact_mod_cast h2)

/-- The witness of C3: growing the one-vertex array to 3 vertices under the
linux/amd64 limit, truncating the two-vertex array to 1 vertex under the limit
0, and the panic on growing to 3 vertices under the limit 2. -/
theorem Resize_then_GetVertexCount_witness :
    ((3 ≤ onePoint.GetVertexCount ∨ 3 ≤ vertexLimit64) ∧
      ∃ b, onePoint.Resize vertexLimit64 ((3 : Nat) : Int) = some b ∧ b.GetVertexCount = 3) ∧
    ((1 ≤ twoPoints.GetVertexCount ∨ 1 ≤ 0) ∧
      ∃ b, twoPoints.Resize 0 ((1 : Nat) : Int) = some b ∧ b.GetVertexCount = 1) ∧
    ((onePoint.GetVertexCount < 3 ∧ 2 < 3) ∧ onePoint.Resize 2 ((3 : Nat) : Int) = none) :=
  ⟨⟨Or.inr (by decide),
      (Resize_then_GetVertexCount vertexLimit64 onePoint 3).1 (Or.inr (by decide))⟩,
    ⟨Or.inl (by decide), (Resize_then_GetVertexCount 0 twoPoints 1).1 (Or.inl (by decide))⟩,
    ⟨⟨by decide, by decide⟩,
      (Resize_then_GetVertexCount 2 onePoint 3).2 ⟨by decide, by decide⟩⟩⟩

/-- C4, as stated, fails: `Resize(1 << 62)` panics on linux/amd64 and under
every limit below `2 ^ 62`, so there is no array afterwards, and growing the
two-vertex array to `m = 1 << 62` and resizing back to 2 does not give the
vertex sequence back. -/
theorem Resize_grow_beyond_the_limit_loses_the_array :
    twoPoints.Resize vertexLimit64 (2 ^ 62 : Int) = none ∧
    (twoPoints.Resize vertexLimit64 (2 ^ 62 : Int)).bind
      (fun c => c.Resize vertexLimit64 (twoPoints.GetVertexCount : Int)) = none ∧
    ∀ limit : Nat, limit < 2 ^ 62 → twoPoints.Resize limit (2 ^ 62 : Int) = none := by
  have h0 : twoPoints.Resize vertexLimit64 (2 ^ 62 : Int) = none :=
    VertexArray.Resize_beyond_limit _ _ _ (by decide) (by decide)
  refine ⟨h0, by rw [h0]; rfl, ?_⟩
  intro limit h
  refine VertexArray.Resize_beyond_limit _ _ _ (by decide) ?_
  have : ((limit : Nat) : Int) < ((2 ^ 62 : Nat) : Int) := by exact_mod_cast h
  simpa using this

/-- C4, amended: for every `n ≥ 0` that is at most the current length or at most
the allocation limit of `make`, `Resize n` returns an array with the same
primitive type whose vertex at each index `i < n` is the old vertex at `i` when
`i` is below the old length and the zero vertex otherwise (and which has no
vertex at an index `i ≥ n`); growing by a `k` that stays within the limit (or by
nothing) and resizing back to the old length gives back exactly the old vertex
sequence; for an `n` above the length and the limit, `Resize n` panics. -/
theorem Resize_keeps_vertices [Zero α] (limit : Nat) (a : VertexArray α) (n : Nat) :
    (n ≤ a.GetVertexCount ∨ n ≤ limit →
      ∃ b, a.Resize limit (n : Int) = some b ∧ b.PrimitiveType = a.PrimitiveType ∧
        ∀ i : Nat, b.GetVertex i =
          if i < n then
            some (if h : i < a.Vertices.elems.length then a.Vertices.elems[i] else Vertex.zero)
          else none) ∧
    (∀ k : Nat, k = 0 ∨ a.GetVertexCount + k ≤ limit →
      ∃ c d, a.Resize limit ((a.GetVertexCount + k : Nat) : Int) = some c ∧
        c.Resize limit (a.GetVertexCount : Int) = some d ∧
        d.Vertices.elems = a.Vertices.elems ∧ d.PrimitiveType = a.PrimitiveType) ∧
    (a.GetVertexCount < n ∧ limit < n → a.Resize limit (n : Int) = none) := by
  refine ⟨?_, ?_, ?_⟩
  · intro hn
    obtain ⟨b, hb, hp, he⟩ := VertexArray.Resize_natCast limit a n hn
    refine ⟨b, hb, hp, fun i => ?_⟩
    simp only [VertexArray.GetVertex, he, Slice.len]
    exact getElem?_take_append_replicate _ _ _ _
  · intro k hk
    have hk1 : a.GetVertexCount + k ≤ a.Vertices.len ∨ a.GetVertexCount + k ≤ limit := by
      rcases hk with hk | hk
      · left; subst hk; simp [VertexArray.GetVertexCount]
      · exact Or.inr hk
    obtain ⟨c, hc, hcp, hce⟩ := VertexArray.Resize_natCast limit a (a.GetVertexCount + k) hk1
    have hclen : a.GetVertexCount ≤ c.Vertices.len := by
      simp only [VertexArray.GetVertexCount, Slice.len, hce, List.length_append,
        List.length_take, List.length_replicate]
      omega
    obtain ⟨d, hd, hdp, hde⟩ :=
      VertexArray.Resize_natCast limit c a.GetVertexCount (Or.inl hclen)
    refine ⟨c, d, hc, hd, ?_, by rw [hdp, hcp]⟩
    have hlen : a.GetVertexCount - c.Vertices.len = 0 := by omega
    rw [hde, hlen, hce]
    simp [VertexArray.GetVertexCount, Slice.len, List.take_append_eq_append_take]
  · rintro ⟨h1, h2⟩
    exact VertexArray.Resize_beyond_limit limit a n (by exact_mod_cast h1) (by exact_mod_cast h2)

/-- The witness of C4: the two-vertex array grown to 3 vertices under the
linux/amd64 limit, grown by 1 and resized back, and the panic on growing to 3
vertices under the limit 2. -/
theorem Resize_keeps_vertices_witness :
    ((3 ≤ twoPoints.GetVertexCount ∨ 3 ≤ vertexLimit64) ∧
      ∃ b, twoPoints.Resize vertexLimit64 ((3 : Nat) : Int) = some b ∧
        b.PrimitiveType = twoPoints.PrimitiveType ∧
        ∀ i : Nat, b.GetVertex i =
          if i < 3 then
            some (if h : i < twoPoints.Vertices.elems.length then twoPoints.Vertices.elems[i]
              else Vertex.zero)
          else none) ∧
    (((1 = 0 ∨ twoPoints.GetVertexCount + 1 ≤ vertexLimit64)) ∧
      ∃ c d, twoPoints.Resize vertexLimit64 ((twoPoints.GetVertexCount + 1 : Nat) : Int) = some c ∧
        c.Resize vertexLimit64 (twoPoints.GetVertexCount : Int) = some d ∧
        d.Vertices.elems = twoPoints.Vertices.elems ∧
        d.PrimitiveType = twoPoints.PrimitiveType) ∧
    ((twoPoints.GetVertexCount < 3 ∧ 2 < 3) ∧ twoPoints.Resize 2 ((3 : Nat) : Int) = none) :=
  ⟨⟨Or.inr (by decide),
      (Resize_keeps_vertices vertexLimit64 twoPoints 3).1 (Or.inr (by decide))⟩,
    ⟨Or.inr (by decide),
      (Resize_keeps_vertices vertexLimit64 twoPoints 3).2.1 1 (Or.inr (by decide))⟩,
    ⟨⟨by decide, by decide⟩,
      (Resize_keeps_vertices 2 twoPoints 3).2.2 ⟨by decide, by decide⟩⟩⟩

/-- C10: `GetBounds` of an array with zero vertices is the rectangle
`(0, 0, 0, 0)`: so it is for the freshly constructed array, after `Clear`, and
after `Resize 0` (which returns, whatever the allocation limit). -/
theorem GetBounds_of_no_vertices [LinearOrderedAddCommGroup α] (a : VertexArray α) :
    (a.GetVertexCount = 0 → a.GetBounds = ⟨0, 0, 0, 0⟩) ∧
    (NewVertexArray.1 : VertexArray α).GetBounds = ⟨0, 0, 0, 0⟩ ∧
    a.Clear.GetBounds = ⟨0, 0, 0, 0⟩ ∧
    ∀ limit : Nat, ∃ b, a.Resize limit 0 = some b ∧ b.GetBounds = ⟨0, 0, 0, 0⟩ := by
  have key : ∀ c : VertexArray α, c.Vertices.elems = [] → c.GetBounds = ⟨0, 0, 0, 0⟩ := by
    intro c hc
    simp [VertexArray.GetBounds, hc, FloatRect.zero]
  refine ⟨fun h => key a ?_, key _ rfl, key _ ?_, ?_⟩
  · exact List.length_eq_zero.mp h
  · simp [VertexArray.Clear, Slice.reslice]
  · intro limit
    obtain ⟨b, hb, -, he⟩ := VertexArray.Resize_natCast limit a 0 (Or.inl (Nat.zero_le _))
    exact ⟨b, by simpa using hb, key b (by simpa using he)⟩

/-- The witness of C10: an emptied array that still owns a backing array with a
vertex in it. -/
theorem GetBounds_of_no_vertices_witness :
    (⟨⟨[], [vertexAt 3 4]⟩, 2⟩ : VertexArray Int).GetVertexCount = 0 ∧
    (⟨⟨[], [vertexAt 3 4]⟩, 2⟩ : VertexArray Int).GetBounds = ⟨0, 0, 0, 0⟩ :=
  ⟨by decide, (GetBounds_of_no_vertices ⟨⟨[], [vertexAt 3 4]⟩, 2⟩).1 (by decide)⟩

/-- C7: `Draw` on an array with zero vertices returns (it does not panic),
records no native call and leaves the array as it is, for every render target
(a window, a texture, a nil pointer of either type, anything else) and all
render states. -/
theorem Draw_of_no_vertices {R S : Type} (toC : R → S) (a : VertexArray α)
    (target : RenderTarget) (renderStates : R) (log : List (DrawCall α S))
    (h : a.GetVertexCount = 0) :
    a.Draw toC target renderStates log = some (a, log) := by
  have h0 : ¬ (a.Vertices.len > 0) := by
    simp only [VertexArray.GetVertexCount] at h
    omega
  simp only [VertexArray.Draw, if_neg h0]

/-- The witness of C7: the empty array drawn on a texture target, after one
earlier native call. -/
theorem Draw_of_no_vertices_witness :
    (⟨⟨[], [vertexAt 3 4]⟩, 2⟩ : VertexArray Int).GetVertexCount = 0 ∧
    (⟨⟨[], [vertexAt 3 4]⟩, 2⟩ : VertexArray Int).Draw (fun r : Nat => r + 1)
        (RenderTarget.texture (some ⟨some 7⟩)) 5
        [DrawCall.sfRenderWindow_drawPrimitives (some 1) [vertexAt 0 0] 1 0 6] =
      some (⟨⟨[], [vertexAt 3 4]⟩, 2⟩,
        [DrawCall.sfRenderWindow_drawPrimitives (some 1) [vertexAt 0 0] 1 0 6]) :=
  ⟨by decide, Draw_of_no_vertices _ _ _ _ _ (by decide)⟩

/-- C6, as the code behaves: on a non-empty array and a window target `Draw`
records exactly one `sfRenderWindow_drawPrimitives` call on the window handle,
with the vertices, the count, the primitive type and the render states; on a
texture target the type assertion to `*RenderWindow` panics and no native call
is made. -/
theorem Draw_on_texture_target_panics :
    onePoint.Draw (fun r : Nat => r + 1) (RenderTarget.window (some ⟨some 7⟩)) 5 [] =
      some (onePoint,
        [DrawCall.sfRenderWindow_drawPrimitives (some 7) [vertexAt 3 4] 1 0 6]) ∧
    onePoint.Draw (fun r : Nat => r + 1) (RenderTarget.texture (some ⟨some 7⟩)) 5 [] = none ∧
    ∀ (β R S : Type) (toC : R → S) (v : Vertex β) (vs spare : List (Vertex β))
      (ptype : PrimitiveType) (rs : R) (log : List (DrawCall β S)),
      (∀ w : RenderWindow,
        VertexArray.Draw toC ⟨⟨v :: vs, spare⟩, ptype⟩ (RenderTarget.window (some w)) rs log =
          some (⟨⟨v :: vs, spare⟩, ptype⟩,
            log ++ [DrawCall.sfRenderWindow_drawPrimitives w.cptr (v :: vs)
              (toCUint (vs.length + 1)) (toCPrimitiveType ptype) (toC rs)])) ∧
      (∀ t : Option RenderTexture,
        VertexArray.Draw toC ⟨⟨v :: vs, spare⟩, ptype⟩ (RenderTarget.texture t) rs log =
          none) := by
  refine ⟨by decide, by decide, ?_⟩
  intro β R S toC v vs spare ptype rs log
  constructor
  · intro w
    simp [VertexArray.Draw, Slice.len, RenderTarget.assertRenderWindow, RenderWindow.deref]
  · intro t
    simp [VertexArray.Draw, Slice.len, RenderTarget.assertRenderWindow]

/-- C8: on an empty buffer `NewFontFromMemory` returns no font and the error,
with no effect at all (so no native call); on a non-empty buffer it returns the
font wrapping the handle that the native create-from-memory call gives for the
buffer and its length, and no error, and the only native call it makes is that
one. -/
theorem NewFontFromMemory_spec (createFromMemory : List Nat → Nat → CPtr) (log : List FontEffect) :
    NewFontFromMemory createFromMemory [] log =
      (none, some "NewFontFromMemory: no data", log) ∧
    ∀ (b : Nat) (bs : List Nat),
      NewFontFromMemory createFromMemory (b :: bs) log =
        (some ⟨createFromMemory (b :: bs) (bs.length + 1)⟩, none,
          log ++ [FontEffect.sfFont_createFromMemory (b :: bs) (bs.length + 1),
                  FontEffect.runtime_SetFinalizer ⟨createFromMemory (b :: bs) (bs.length + 1)⟩]) ∧
      ((NewFontFromMemory createFromMemory (b :: bs) log).2.2.filter FontEffect.isNative =
        log.filter FontEffect.isNative ++
          [FontEffect.sfFont_createFromMemory (b :: bs) (bs.length + 1)]) := by
  refine ⟨by simp [NewFontFromMemory], fun b bs => ⟨by simp [NewFontFromMemory], ?_⟩⟩
  simp [NewFontFromMemory, List.filter_append, FontEffect.isNative]

/-- C9, as stated, fails: the second `Destroy` is not a no-op, it calls the
native destroy function again (on the nil handle), so `Destroy; Destroy` does
not have the effect of a single `Destroy`. -/
theorem Destroy_twice_is_not_Destroy_once :
    (Font.Destroy ⟨some 1⟩ []).2 = [FontEffect.sfFont_destroy (some 1)] ∧
    ((Font.Destroy ⟨some 1⟩ []).1.Destroy (Font.Destroy ⟨some 1⟩ []).2).2 =
      [FontEffect.sfFont_destroy (some 1), FontEffect.sfFont_destroy none] ∧
    (Font.Destroy ⟨some 1⟩ []).1.Destroy (Font.Destroy ⟨some 1⟩ []).2 ≠
      Font.Destroy ⟨some 1⟩ [] := by
  decide

/-- C9, amended: after the first `Destroy` the handle is nil; a second `Destroy`
leaves the wrapper as it is and makes one more native destroy call, on the nil
handle; so the calls of `Destroy; Destroy` are the destroy of the old handle
followed by the destroy of nil, and every non-nil handle is passed to the native
destroy call as often by two `Destroy`s as by one: once more than before for the
font's own handle, no more than before for any other. -/
theorem Destroy_twice (f : Font) (log : List FontEffect) :
    (f.Destroy log).1.cptr = none ∧
    (f.Destroy log).2 = log ++ [FontEffect.sfFont_destroy f.cptr] ∧
    ((f.Destroy log).1.Destroy (f.Destroy log).2).1 = (f.Destroy log).1 ∧
    ((f.Destroy log).1.Destroy (f.Destroy log).2).2 =
      log ++ [FontEffect.sfFont_destroy f.cptr, FontEffect.sfFont_destroy none] ∧
    ∀ h : Nat,
      (((f.Destroy log).1.Destroy (f.Destroy log).2).2.count
          (FontEffect.sfFont_destroy (some h)) =
        (f.Destroy log).2.count (FontEffect.sfFont_destroy (some h))) ∧
      (f.Destroy log).2.count (FontEffect.sfFont_destroy (some h)) =
        log.count (FontEffect.sfFont_destroy (some h)) + if f.cptr = some h then 1 else 0 := by
  refine ⟨rfl, rfl, rfl, by simp [Font.Destroy], fun h => ?_⟩
  simp only [Font.Destroy, List.count_append, List.count_singleton]
  constructor
  · simp
  · by_cases hc : f.cptr = some h <;> simp [hc]

/-- C5: after `Clear` and the appends of `ws` in order, the vertex sequence is
exactly `ws`, as it is for the freshly constructed array given the same
primitive type after the same appends; the two arrays agree on the primitive
type and on the results of `GetVertexCount`, `GetVertex` (at every index, in
range or not) and `GetBounds`, whatever the backing array kept by `Clear`. -/
theorem Clear_then_Append_like_fresh [LinearOrderedAddCommGroup α] (grow : Nat → Nat)
    (a : VertexArray α) (ws : List (Vertex α)) :
    (appendAll grow a.Clear ws).Vertices.elems = ws ∧
    (appendAll grow (NewVertexArray.1.SetPrimitiveType a.PrimitiveType) ws).Vertices.elems = ws ∧
    (appendAll grow a.Clear ws).PrimitiveType =
      (appendAll grow (NewVertexArray.1.SetPrimitiveType a.PrimitiveType) ws).PrimitiveType ∧
    (appendAll grow a.Clear ws).GetVertexCount =
      (appendAll grow (NewVertexArray.1.SetPrimitiveType a.PrimitiveType) ws).GetVertexCount ∧
    (∀ i : Nat, (appendAll grow a.Clear ws).GetVertex i =
      (appendAll grow (NewVertexArray.1.SetPrimitiveType a.PrimitiveType) ws).GetVertex i) ∧
    (appendAll grow a.Clear ws).GetBounds =
      (appendAll grow (NewVertexArray.1.SetPrimitiveType a.PrimitiveType) ws).GetBounds := by
  have h1 := appendAll_spec grow ws a.Clear
  have h2 := appendAll_spec grow ws (NewVertexArray.1.SetPrimitiveType a.PrimitiveType)
  have e1 : (appendAll grow a.Clear ws).Vertices.elems = ws := by
    rw [h1.1]; simp [VertexArray.Clear, Slice.reslice]
  have e2 : (appendAll grow (NewVertexArray.1.SetPrimitiveType a.PrimitiveType)
      ws).Vertices.elems = ws := by
    rw [h2.1]; simp [VertexArray.SetPrimitiveType, NewVertexArray, Slice.nil]
  refine ⟨e1, e2, ?_, ?_, ?_, ?_⟩
  · rw [h1.2, h2.2]; rfl
  · simp only [VertexArray.GetVertexCount, Slice.len, e1, e2]
  · intro i
    simp only [VertexArray.GetVertex, e1, e2]
  · exact VertexArray.GetBounds_congr _ _ (by rw [e1, e2])

/-- C2: for a non-empty array over exact, totally ordered coordinates,
`GetBounds` is the rectangle `(minX, minY, maxX - minX, maxY - minY)`, where
`minX`, `maxX`, `minY`, `maxY` are the least and the greatest of the `X` and of
the `Y` coordinates of the vertex positions; so every vertex position lies
between `Left` and `Left + Width` and between `Top` and `Top + Height`, and the
width and the height are not negative. -/
theorem GetBounds_is_bounding_box [LinearOrderedAddCommGroup α] (a : VertexArray α)
    (h : 0 < a.GetVertexCount) :
    (∃ minX maxX minY maxY : α,
      IsLeast {x | ∃ v ∈ a.Vertices.elems, v.Position.X = x} minX ∧
      IsGreatest {x | ∃ v ∈ a.Vertices.elems, v.Position.X = x} maxX ∧
      IsLeast {y | ∃ v ∈ a.Vertices.elems, v.Position.Y = y} minY ∧
      IsGreatest {y | ∃ v ∈ a.Vertices.elems, v.Position.Y = y} maxY ∧
      a.GetBounds = ⟨minX, minY, maxX - minX, maxY - minY⟩) ∧
    (∀ v ∈ a.Vertices.elems,
      a.GetBounds.Left ≤ v.Position.X ∧
      v.Position.X ≤ a.GetBounds.Left + a.GetBounds.Width ∧
      a.GetBounds.Top ≤ v.Position.Y ∧
      v.Position.Y ≤ a.GetBounds.Top + a.GetBounds.Height) ∧
    0 ≤ a.GetBounds.Width ∧ 0 ≤ a.GetBounds.Height := by
  obtain ⟨⟨elems, spare⟩, ptype⟩ := a
  cases elems with
  | nil => exact absurd h (by simp [VertexArray.GetVertexCount, Slice.len])
  | cons v0 rest =>
    have hb : (VertexArray.mk (Slice.mk (v0 :: rest) spare) ptype).GetBounds =
        ⟨rest.foldl (fun m v => min m v.Position.X) v0.Position.X,
         rest.foldl (fun m v => min m v.Position.Y) v0.Position.Y,
         rest.foldl (fun m v => max m v.Position.X) v0.Position.X -
           rest.foldl (fun m v => min m v.Position.X) v0.Position.X,
         rest.foldl (fun m v => max m v.Position.Y) v0.Position.Y -
           rest.foldl (fun m v => min m v.Position.Y) v0.Position.Y⟩ := by
      simp only [VertexArray.GetBounds]
      rw [boundsLoop_eq rest _ le_rfl le_rfl]
    have hminX := foldl_min_isLeast (fun v : Vertex α => v.Position.X) rest v0.Position.X
    have hmaxX := foldl_max_isGreatest (fun v : Vertex α => v.Position.X) rest v0.Position.X
    have hminY := foldl_min_isLeast (fun v : Vertex α => v.Position.Y) rest v0.Position.Y
    have hmaxY := foldl_max_isGreatest (fun v : Vertex α => v.Position.Y) rest v0.Position.Y
    rw [← coordinates_cons (fun v : Vertex α => v.Position.X)] at hminX hmaxX
    rw [← coordinates_cons (fun v : Vertex α => v.Position.Y)] at hminY hmaxY
    refine ⟨⟨_, _, _, _, hminX, hmaxX, hminY, hmaxY, hb⟩, ?_, ?_, ?_⟩
    · intro v hv
      rw [hb]
      simp only [add_sub_cancel]
      exact ⟨hminX.2 ⟨v, hv, rfl⟩, hmaxX.2 ⟨v, hv, rfl⟩, hminY.2 ⟨v, hv, rfl⟩,
        hmaxY.2 ⟨v, hv, rfl⟩⟩
    · rw [hb]
      exact sub_nonneg.mpr (le_trans (hminX.2 ⟨v0, List.mem_cons_self _ _, rfl⟩)
        (hmaxX.2 ⟨v0, List.mem_cons_self _ _, rfl⟩))
    · rw [hb]
      exact sub_nonneg.mpr (le_trans (hminY.2 ⟨v0, List.mem_cons_self _ _, rfl⟩)
        (hmaxY.2 ⟨v0, List.mem_cons_self _ _, rfl⟩))

/-- The witness of C2: the vertices at `(0, 0)` and `(10, 5)` give the
rectangle `(0, 0, 10, 5)`, the single vertex at `(3, 4)` gives `(3, 4, 0, 0)`,
and the theorem holds of the first of the two arrays. -/
theorem GetBounds_is_bounding_box_witness :
    0 < twoPoints.GetVertexCount ∧
    twoPoints.GetBounds = ⟨0, 0, 10, 5⟩ ∧
    onePoint.GetBounds = ⟨3, 4, 0, 0⟩ ∧
    ((∃ minX maxX minY maxY : Int,
      IsLeast {x | ∃ v ∈ twoPoints.Vertices.elems, v.Position.X = x} minX ∧
      IsGreatest {x | ∃ v ∈ twoPoints.Vertices.elems, v.Position.X = x} maxX ∧
      IsLeast {y | ∃ v ∈ twoPoints.Vertices.elems, v.Position.Y = y} minY ∧
      IsGreatest {y | ∃ v ∈ twoPoints.Vertices.elems, v.Position.Y = y} maxY ∧
      twoPoints.GetBounds = ⟨minX, minY, maxX - minX, maxY - minY⟩) ∧
    (∀ v ∈ twoPoints.Vertices.elems,
      twoPoints.GetBounds.Left ≤ v.Position.X ∧
      v.Position.X ≤ twoPoints.GetBounds.Left + twoPoints.GetBounds.Width ∧
      twoPoints.GetBounds.Top ≤ v.Position.Y ∧
      v.Position.Y ≤ twoPoints.GetBounds.Top + twoPoints.GetBounds.Height) ∧
    0 ≤ twoPoints.GetBounds.Width ∧ 0 ≤ twoPoints.GetBounds.Height) :=
  ⟨by decide, by decide, by decide, GetBounds_is_bounding_box twoPoints (by decide)⟩

end Claims

end Gosfml
